import Mathlib

/-!
Formal model of the core components of the telegram-openai-bot
repository: the rate limiter (src/utils/rate_limiter.py), the session
manager (src/utils/session.py), the input validator
(src/utils/validators.py) and the chat message pipeline
(src/handlers/chat.py).

Modelling conventions:
- timestamps (Python `time.time()` floats) are modelled as whole
  seconds, type `Int`;
- Python dicts keyed by the Telegram user id are modelled as
  association lists over `Nat` keys, preserving insertion order exactly
  as Python 3.7+ dicts do;
- `collections.deque` objects are modelled as `List` (left = head of
  the deque), with the `maxlen` bound made explicit.
-/

namespace Bot

/-- Association-list lookup, modelling a read of a Python dict
(`d[k]` / `d.get(k)`): the first entry with the requested key wins. -/
def alookup {α : Type} : List (Nat × α) → Nat → Option α
  | [], _ => none
  | (k, v) :: rest, key => if key = k then some v else alookup rest key

/-- Association-list write, modelling `d[k] = v` on a Python dict:
if the key is present the value is replaced in place (position in the
insertion order kept), otherwise the pair is appended at the end. -/
def aset {α : Type} (l : List (Nat × α)) (key : Nat) (v : α) : List (Nat × α) :=
  if (alookup l key).isSome then
    l.map (fun p => if p.1 = key then (key, v) else p)
  else
    l ++ [(key, v)]

theorem alookup_map_replace_self {α : Type} (v : α) :
    ∀ (l : List (Nat × α)) (key : Nat) (w : α), alookup l key = some w →
      alookup (l.map (fun p => if p.1 = key then (key, v) else p)) key = some v := by
  intro l
  induction l with
  | nil => intro key w h; simp [alookup] at h
  | cons hd tl ih =>
    intro key w h
    obtain ⟨k, u⟩ := hd
    rw [List.map_cons]
    by_cases hk : k = key
    · have : (if (k, u).1 = key then (key, v) else (k, u)) = (key, v) := by
        simp [hk]
      rw [this]
      simp [alookup]
    · have : (if (k, u).1 = key then (key, v) else (k, u)) = (k, u) := by
        simp [hk]
      rw [this]
      have hne : ¬ key = k := fun hcontra => hk hcontra.symm
      rw [alookup, if_neg hne]
      rw [alookup, if_neg hne] at h
      exact ih key w h

theorem alookup_append_single_none {α : Type} :
    ∀ (l : List (Nat × α)) (key : Nat) (v : α), alookup l key = none →
      alookup (l ++ [(key, v)]) key = some v := by
  intro l
  induction l with
  | nil => intro key v _; simp [alookup]
  | cons hd tl ih =>
    intro key v h
    obtain ⟨k, u⟩ := hd
    by_cases hk : key = k
    · simp [alookup, hk] at h
    · simp [alookup, hk] at h ⊢
      exact ih key v h

/-- Reading back the key just written returns the new value. -/
theorem alookup_aset_self {α : Type} (l : List (Nat × α)) (key : Nat) (v : α) :
    alookup (aset l key v) key = some v := by
  unfold aset
  by_cases h : (alookup l key).isSome
  · simp only [h, if_true]
    obtain ⟨w, hw⟩ := Option.isSome_iff_exists.mp h
    exact alookup_map_replace_self v l key w hw
  · simp only [h, if_false]
    exact alookup_append_single_none l key v (Option.not_isSome_iff_eq_none.mp h)

theorem alookup_map_replace_ne {α : Type} (v : α) (key key2 : Nat) (h : key2 ≠ key) :
    ∀ (l : List (Nat × α)),
      alookup (l.map (fun p => if p.1 = key then (key, v) else p)) key2 = alookup l key2 := by
  intro l
  induction l with
  | nil => simp [alookup]
  | cons hd tl ih =>
    obtain ⟨k, u⟩ := hd
    rw [List.map_cons]
    by_cases hk : k = key
    · have heq : (if (k, u).1 = key then (key, v) else (k, u)) = (key, v) := by
        simp [hk]
      rw [heq]
      have hne2 : ¬ key2 = k := by rw [hk]; exact h
      rw [alookup, if_neg h, alookup, if_neg hne2]
      exact ih
    · have heq : (if (k, u).1 = key then (key, v) else (k, u)) = (k, u) := by
        simp [hk]
      rw [heq]
      by_cases h2 : key2 = k
      · rw [alookup, if_pos h2, alookup, if_pos h2]
      · rw [alookup, if_neg h2, alookup, if_neg h2]
        exact ih

theorem alookup_append_single_ne {α : Type} (key key2 : Nat) (v : α) (h : key2 ≠ key) :
    ∀ (l : List (Nat × α)), alookup (l ++ [(key, v)]) key2 = alookup l key2 := by
  intro l
  induction l with
  | nil => simp [alookup, h]
  | cons hd tl ih =>
    obtain ⟨k, u⟩ := hd
    by_cases h2 : key2 = k
    · simp only [List.cons_append, alookup, if_pos h2]
    · simp only [List.cons_append, alookup, if_neg h2]
      exact ih

/-- Writing one key does not change the value read at another key. -/
theorem alookup_aset_ne {α : Type} (l : List (Nat × α)) (key key2 : Nat) (v : α)
    (h : key2 ≠ key) : alookup (aset l key v) key2 = alookup l key2 := by
  unfold aset
  by_cases hs : (alookup l key).isSome
  · simp only [hs, if_true]
    exact alookup_map_replace_ne v key key2 h l
  · simp only [hs, if_false]
    exact alookup_append_single_ne key key2 v h l

/-- When a key is absent from the list, lookup after appending a pair
with a different key is still `none`. -/
theorem alookup_isSome_getD {α : Type} (l : List (Nat × α)) (key : Nat) (d : α) :
    (alookup l key).getD d = ((alookup l key).map id).getD d := by
  cases alookup l key <;> rfl

/-! ## Rate limiter (src/utils/rate_limiter.py) -/

/-- State of a `RateLimiter` object: `max_requests`, `time_window`,
the per-user timestamp deques (`user_requests`, a `defaultdict(deque)`)
and the cleanup bookkeeping (`last_cleanup`, `cleanup_interval`). -/
structure RLState where
  maxRequests : Nat
  timeWindow : Int
  requests : List (Nat × List Int)
  lastCleanup : Int
  cleanupInterval : Int
deriving DecidableEq

/-- `RateLimiter.__init__` (lines 26-43): empty request map,
`last_cleanup = time.time()`, `cleanup_interval = 300`. -/
def rlInit (maxRequests : Nat) (timeWindow : Int) (now : Int) : RLState :=
  ⟨maxRequests, timeWindow, [], now, 300⟩

/-- The head-trimming loop shared by `is_allowed` (lines 67-68) and
`_cleanup_if_needed` (lines 132-133): pop from the left of the deque
while the head timestamp is `< cutoff`. -/
def trimQueue (cutoff : Int) (q : List Int) : List Int :=
  q.dropWhile (fun t => decide (t < cutoff))

/-- The per-user loop of `_cleanup_if_needed` (lines 126-141): every
queue is trimmed at `cutoff` and users whose queue became empty are
deleted from the dict. -/
def cleanupMap (cutoff : Int) (m : List (Nat × List Int)) : List (Nat × List Int) :=
  (m.map (fun p => (p.1, trimQueue cutoff p.2))).filter (fun p => !p.2.isEmpty)

/-- `RateLimiter._cleanup_if_needed` (lines 115-143): a no-op unless at
least `cleanup_interval` seconds have passed since `last_cleanup`. -/
def cleanupIfNeeded (now : Int) (s : RLState) : RLState :=
  if now - s.lastCleanup < s.cleanupInterval then s
  else
    { s with requests := cleanupMap (now - s.timeWindow) s.requests, lastCleanup := now }

/-- `RateLimiter.is_allowed` (lines 45-81): runs the periodic cleanup,
trims the head of the caller's queue at `cutoff = now - time_window`,
and admits (appending `now`) exactly when the trimmed count is below
`max_requests`. The trimmed queue is written back in both branches,
because the Python code mutates the deque in place. -/
def isAllowed (now : Int) (uid : Nat) (s : RLState) : (Bool × Nat) × RLState :=
  let s1 := cleanupIfNeeded now s
  let q := (alookup s1.requests uid).getD []
  let trimmed := trimQueue (now - s1.timeWindow) q
  if trimmed.length < s1.maxRequests then
    ((true, s1.maxRequests - trimmed.length - 1),
      { s1 with requests := aset s1.requests uid (trimmed ++ [now]) })
  else
    ((false, 0), { s1 with requests := aset s1.requests uid trimmed })

/-- `RateLimiter.get_wait_time` (lines 83-103). The Python
`int(...)` cast is the identity here because time is modelled in whole
seconds. (The `defaultdict` access on line 93 may insert an empty
deque; that does not affect the returned value, which is all this
function is used for.) -/
def getWaitTime (now : Int) (uid : Nat) (s : RLState) : Int :=
  let q := (alookup s.requests uid).getD []
  match q with
  | [] => 0
  | oldest :: rest =>
    if (oldest :: rest).length < s.maxRequests then 0
    else max 0 (s.timeWindow - (now - oldest))

/-- Trimming is idempotent: after a trim, the head (if any) is already
at or after the cutoff. -/
theorem trimQueue_trimQueue (cutoff : Int) (q : List Int) :
    trimQueue cutoff (trimQueue cutoff q) = trimQueue cutoff q := by
  induction q with
  | nil => rfl
  | cons a t ih =>
    by_cases h : a < cutoff
    · simp only [trimQueue, List.dropWhile_cons, decide_eq_true_eq, h, if_true] at ih ⊢
      exact ih
    · simp [trimQueue, List.dropWhile_cons, h]

/-- A trimmed queue is never longer than the original. -/
theorem trimQueue_length_le (cutoff : Int) (q : List Int) :
    (trimQueue cutoff q).length ≤ q.length := by
  induction q with
  | nil => exact Nat.le_refl 0
  | cons a t ih =>
    by_cases h : a < cutoff
    · simp only [trimQueue, List.dropWhile_cons, decide_eq_true_eq, h, if_true] at ih ⊢
      exact Nat.le_succ_of_le ih
    · simp [trimQueue, List.dropWhile_cons, h]

/-- A key that is absent yields the empty default queue. -/
theorem alookup_none_of_not_mem {α : Type} :
    ∀ (l : List (Nat × α)) (key : Nat), key ∉ l.map Prod.fst → alookup l key = none := by
  intro l
  induction l with
  | nil => intro key _; rfl
  | cons hd tl ih =>
    intro key h
    obtain ⟨k, u⟩ := hd
    simp only [List.map_cons, List.mem_cons] at h
    push_neg at h
    rw [alookup, if_neg h.1]
    exact ih key h.2

/-- Every key surviving the cleanup pass was a key of the original
dict (the pass only deletes entries). -/
theorem cleanupMap_keys_sub (cutoff : Int) (m : List (Nat × List Int)) :
    ∀ x, x ∈ (cleanupMap cutoff m).map Prod.fst → x ∈ m.map Prod.fst := by
  intro x hx
  have h1 : (cleanupMap cutoff m).Sublist
      (m.map (fun p => (p.1, trimQueue cutoff p.2))) := List.filter_sublist _
  have h2 := h1.map Prod.fst
  have h3 : (m.map (fun p => (p.1, trimQueue cutoff p.2))).map Prod.fst =
      m.map Prod.fst := by
    rw [List.map_map]
    rfl
  rw [h3] at h2
  exact h2.subset hx

/-- Looking a user up after the cleanup pass and trimming once more
gives the same queue as trimming the original queue: the cleanup either
left the trimmed queue in place or deleted it because it was empty.
Needs distinct keys (true of every reachable dict). -/
theorem trim_alookup_cleanupMap (cutoff : Int) :
    ∀ (m : List (Nat × List Int)) (uid : Nat), (m.map Prod.fst).Nodup →
      trimQueue cutoff ((alookup (cleanupMap cutoff m) uid).getD []) =
      trimQueue cutoff ((alookup m uid).getD []) := by
  intro m
  induction m with
  | nil => intro uid _; rfl
  | cons hd tl ih =>
    intro uid hnd
    obtain ⟨k, q⟩ := hd
    simp only [List.map_cons, List.nodup_cons] at hnd
    obtain ⟨hk_not_mem, hnd_tl⟩ := hnd
    simp only [cleanupMap, List.map_cons, List.filter_cons]
    by_cases hu : uid = k
    · subst hu
      have hrhs : alookup ((uid, q) :: tl) uid = some q := by
        rw [alookup, if_pos rfl]
      rw [hrhs]
      by_cases he : (trimQueue cutoff q).isEmpty
      · have hcond : (!((uid, trimQueue cutoff q).2.isEmpty)) = false := by
          simp [he]
        rw [hcond]
        simp only [Bool.false_eq_true, if_false]
        have h1 : alookup ((tl.map (fun p => (p.1, trimQueue cutoff p.2))).filter
            (fun p => !p.2.isEmpty)) uid = none := by
          apply alookup_none_of_not_mem
          intro hmem
          exact hk_not_mem (cleanupMap_keys_sub cutoff tl uid hmem)
        rw [h1]
        have hq : trimQueue cutoff q = [] := List.isEmpty_iff.mp he
        simp only [Option.getD_some, Option.getD_none]
        rw [hq]
        rfl
      · have hcond : (!((uid, trimQueue cutoff q).2.isEmpty)) = true := by
          simp [he]
        rw [hcond]
        simp only [if_true]
        rw [alookup, if_pos rfl]
        exact trimQueue_trimQueue cutoff q
    · have hrhs : alookup ((k, q) :: tl) uid = alookup tl uid := by
        rw [alookup, if_neg hu]
      rw [hrhs]
      by_cases he : (trimQueue cutoff q).isEmpty
      · have hcond : (!((k, trimQueue cutoff q).2.isEmpty)) = false := by
          simp [he]
        rw [hcond]
        simp only [Bool.false_eq_true, if_false]
        exact ih uid hnd_tl
      · have hcond : (!((k, trimQueue cutoff q).2.isEmpty)) = true := by
          simp [he]
        rw [hcond]
        simp only [if_true]
        rw [alookup, if_neg hu]
        exact ih uid hnd_tl
theorem cleanupIfNeeded_maxRequests (now : Int) (s : RLState) :
    (cleanupIfNeeded now s).maxRequests = s.maxRequests := by
  unfold cleanupIfNeeded
  split <;> rfl

theorem cleanupIfNeeded_timeWindow (now : Int) (s : RLState) :
    (cleanupIfNeeded now s).timeWindow = s.timeWindow := by
  unfold cleanupIfNeeded
  split <;> rfl

/-- The cleanup performed at the top of `is_allowed` does not change
what the subsequent trim of the calling user queue produces. -/
theorem trim_alookup_cleanupIfNeeded (now : Int) (uid : Nat) (s : RLState)
    (hnd : (s.requests.map Prod.fst).Nodup) :
    trimQueue (now - s.timeWindow) ((alookup (cleanupIfNeeded now s).requests uid).getD []) =
    trimQueue (now - s.timeWindow) ((alookup s.requests uid).getD []) := by
  unfold cleanupIfNeeded
  split
  · rfl
  · exact trim_alookup_cleanupMap (now - s.timeWindow) s.requests uid hnd

/-- C1: on `is_allowed`, the head of the identity queue is first
trimmed at `cutoff = now - time_window`; if the remaining count is
below `max_requests` the call appends `now` and returns
`(True, max_requests - count_after_append)`; otherwise it returns
`(False, 0)` and records nothing; a first-time identity (empty queue)
is admitted with `max_requests - 1` remaining. At most one event is
recorded per call, and only on success (visible in the two queue
equations). -/
theorem c1_rate_is_allowed (now : Int) (uid : Nat) (s : RLState)
    (hnd : (s.requests.map Prod.fst).Nodup) :
    ((trimQueue (now - s.timeWindow) ((alookup s.requests uid).getD [])).length <
        s.maxRequests →
      (isAllowed now uid s).1 = (true, s.maxRequests -
        ((trimQueue (now - s.timeWindow) ((alookup s.requests uid).getD [])).length + 1)) ∧
      (alookup (isAllowed now uid s).2.requests uid).getD [] =
        trimQueue (now - s.timeWindow) ((alookup s.requests uid).getD []) ++ [now]) ∧
    (s.maxRequests ≤
        (trimQueue (now - s.timeWindow) ((alookup s.requests uid).getD [])).length →
      (isAllowed now uid s).1 = (false, 0) ∧
      (alookup (isAllowed now uid s).2.requests uid).getD [] =
        trimQueue (now - s.timeWindow) ((alookup s.requests uid).getD [])) ∧
    ((alookup s.requests uid).getD [] = [] → 0 < s.maxRequests →
      (isAllowed now uid s).1 = (true, s.maxRequests - 1)) := by
  have hmax := cleanupIfNeeded_maxRequests now s
  have hwin := cleanupIfNeeded_timeWindow now s
  have htrim := trim_alookup_cleanupIfNeeded now uid s hnd
  simp only [isAllowed]
  rw [hmax, hwin, htrim]
  by_cases hlt : (trimQueue (now - s.timeWindow)
      ((alookup s.requests uid).getD [])).length < s.maxRequests
  · rw [if_pos hlt]
    refine ⟨fun _ => ⟨?_, ?_⟩, fun hge => absurd hlt (Nat.not_lt.mpr hge), ?_⟩
    · simp [Nat.sub_sub]
    · simp only
      rw [alookup_aset_self]
      rfl
    · intro hq _
      simp only [Prod.mk.injEq, true_and]
      rw [hq]
      rfl
  · rw [if_neg hlt]
    refine ⟨fun h => absurd h hlt, fun _ => ⟨rfl, ?_⟩, fun hq hpos => ?_⟩
    · simp only
      rw [alookup_aset_self]
      rfl
    · exfalso
      rw [hq] at hlt
      exact hlt (by simpa [trimQueue] using hpos)

/-- C6: `get_wait_time` returns `max(0, window - (now - oldest))` for
an identity whose stored queue currently holds at least `max_requests`
events, and `0` when the identity has no stored events or is under
capacity. -/
theorem c6_wait_time (now : Int) (uid : Nat) (s : RLState) :
    (∀ oldest rest, (alookup s.requests uid).getD [] = oldest :: rest →
      s.maxRequests ≤ (oldest :: rest).length →
      getWaitTime now uid s = max 0 (s.timeWindow - (now - oldest))) ∧
    ((alookup s.requests uid).getD [] = [] → getWaitTime now uid s = 0) ∧
    (((alookup s.requests uid).getD []).length < s.maxRequests →
      getWaitTime now uid s = 0) := by
  refine ⟨?_, ?_, ?_⟩
  · intro oldest rest hq hge
    unfold getWaitTime
    rw [hq]
    simp only [if_neg (Nat.not_lt.mpr hge)]
  · intro hq
    unfold getWaitTime
    rw [hq]
  · intro hlt
    unfold getWaitTime
    rcases hcase : (alookup s.requests uid).getD [] with _ | ⟨oldest, rest⟩
    · rfl
    · rw [hcase] at hlt
      simp only [if_pos hlt]

/-- Concrete instance for `c6_wait_time`: with `max_requests = 2`,
`window = 60` and two stored events, the wait is `60 - (now - oldest)`;
with an empty queue it is `0`. -/
theorem c6_wait_time_witness :
    getWaitTime 70 1 ⟨2, 60, [(1, [15, 20])], 0, 300⟩ = 5 ∧
    getWaitTime 70 2 ⟨2, 60, [(1, [15, 20])], 0, 300⟩ = 0 := by
  constructor
  · have h := (c6_wait_time 70 1 ⟨2, 60, [(1, [15, 20])], 0, 300⟩).1 15 [20]
      (by decide) (by decide)
    rw [h]
    decide
  · exact (c6_wait_time 70 2 ⟨2, 60, [(1, [15, 20])], 0, 300⟩).2.1 (by decide)

/-- Concrete instance for `c1_rate_is_allowed`: a first request at `now = 5`
against a fresh limiter (10 per 60 s) is admitted with 9 remaining and
records exactly the event `[5]`. -/
theorem c1_rate_is_allowed_witness :
    (isAllowed 5 1 (rlInit 10 60 0)).1 = (true, 9) ∧
    (alookup (isAllowed 5 1 (rlInit 10 60 0)).2.requests 1).getD [] = [5] := by
  have h := (c1_rate_is_allowed 5 1 (rlInit 10 60 0) (by decide)).1 (by decide)
  constructor
  · rw [h.1]
    rfl
  · rw [h.2]
    rfl
theorem alookup_isSome_of_mem {α : Type} :
    ∀ (l : List (Nat × α)) (key : Nat), key ∈ l.map Prod.fst →
      (alookup l key).isSome := by
  intro l
  induction l with
  | nil => intro key h; simp at h
  | cons hd tl ih =>
    intro key h
    obtain ⟨k, u⟩ := hd
    by_cases hk : key = k
    · rw [alookup, if_pos hk]
      rfl
    · rw [alookup, if_neg hk]
      simp only [List.map_cons, List.mem_cons] at h
      exact ih key (h.resolve_left hk)

/-- The in-place replacement performed by `aset` when the key exists
keeps the key sequence of the dict unchanged. -/
theorem aset_replace_keys {α : Type} (key : Nat) (v : α) :
    ∀ (l : List (Nat × α)),
      (l.map (fun p => if p.1 = key then (key, v) else p)).map Prod.fst =
      l.map Prod.fst := by
  intro l
  induction l with
  | nil => rfl
  | cons hd tl ih =>
    obtain ⟨k, u⟩ := hd
    simp only [List.map_cons]
    by_cases hk : k = key
    · have : (if (k, u).1 = key then (key, v) else (k, u)) = (key, v) := by simp [hk]
      rw [this, ih, hk]
    · have : (if (k, u).1 = key then (key, v) else (k, u)) = (k, u) := by simp [hk]
      rw [this, ih]

/-- `aset` preserves distinctness of dict keys. -/
theorem aset_keys_nodup {α : Type} (l : List (Nat × α)) (key : Nat) (v : α)
    (hnd : (l.map Prod.fst).Nodup) : ((aset l key v).map Prod.fst).Nodup := by
  unfold aset
  by_cases hs : (alookup l key).isSome
  · rw [if_pos hs, aset_replace_keys]
    exact hnd
  · rw [if_neg hs]
    have hnm : key ∉ l.map Prod.fst := fun hmem => hs (alookup_isSome_of_mem l key hmem)
    simp only [List.map_append, List.map_cons, List.map_nil]
    rw [List.nodup_append]
    exact ⟨hnd, List.nodup_singleton key, by
      intro a ha hb
      simp only [List.mem_singleton] at hb
      subst hb
      exact hnm ha⟩

/-- The cleanup pass preserves distinctness of dict keys. -/
theorem cleanupMap_keys_nodup (cutoff : Int) (m : List (Nat × List Int))
    (hnd : (m.map Prod.fst).Nodup) : ((cleanupMap cutoff m).map Prod.fst).Nodup := by
  have h1 : (cleanupMap cutoff m).Sublist
      (m.map (fun p => (p.1, trimQueue cutoff p.2))) := List.filter_sublist _
  have h2 := h1.map Prod.fst
  have h3 : (m.map (fun p => (p.1, trimQueue cutoff p.2))).map Prod.fst =
      m.map Prod.fst := by
    rw [List.map_map]
    rfl
  rw [h3] at h2
  exact hnd.sublist h2

/-- After the cleanup pass no user queue got longer. -/
theorem alookup_cleanupMap_length_le (cutoff : Int) :
    ∀ (m : List (Nat × List Int)) (uid : Nat), (m.map Prod.fst).Nodup →
      ((alookup (cleanupMap cutoff m) uid).getD []).length ≤
      ((alookup m uid).getD []).length := by
  intro m
  induction m with
  | nil => intro uid _; exact Nat.le_refl 0
  | cons hd tl ih =>
    intro uid hnd
    obtain ⟨k, q⟩ := hd
    simp only [List.map_cons, List.nodup_cons] at hnd
    obtain ⟨hk_not_mem, hnd_tl⟩ := hnd
    simp only [cleanupMap, List.map_cons, List.filter_cons]
    by_cases hu : uid = k
    · subst hu
      rw [alookup, if_pos rfl, Option.getD_some]
      by_cases he : (trimQueue cutoff q).isEmpty
      · have hcond : (!((uid, trimQueue cutoff q).2.isEmpty)) = false := by simp [he]
        rw [hcond]
        simp only [Bool.false_eq_true, if_false]
        have h1 : alookup ((tl.map (fun p => (p.1, trimQueue cutoff p.2))).filter
            (fun p => !p.2.isEmpty)) uid = none := by
          apply alookup_none_of_not_mem
          intro hmem
          exact hk_not_mem (cleanupMap_keys_sub cutoff tl uid hmem)
        rw [h1]
        exact Nat.zero_le _
      · have hcond : (!((uid, trimQueue cutoff q).2.isEmpty)) = true := by simp [he]
        rw [hcond]
        simp only [if_true]
        rw [alookup, if_pos rfl, Option.getD_some]
        exact trimQueue_length_le cutoff q
    · rw [alookup, if_neg hu]
      by_cases he : (trimQueue cutoff q).isEmpty
      · have hcond : (!((k, trimQueue cutoff q).2.isEmpty)) = false := by simp [he]
        rw [hcond]
        simp only [Bool.false_eq_true, if_false]
        exact ih uid hnd_tl
      · have hcond : (!((k, trimQueue cutoff q).2.isEmpty)) = true := by simp [he]
        rw [hcond]
        simp only [if_true]
        rw [alookup, if_neg hu]
        exact ih uid hnd_tl

/-- Reachability invariant for the rate limiter: distinct dict keys and
every stored queue no longer than `max_requests`. -/
def RLGood (s : RLState) : Prop :=
  (s.requests.map Prod.fst).Nodup ∧
  ∀ uid, ((alookup s.requests uid).getD []).length ≤ s.maxRequests

theorem cleanupIfNeeded_good (now : Int) (s : RLState) (h : RLGood s) :
    RLGood (cleanupIfNeeded now s) := by
  unfold cleanupIfNeeded
  split
  · exact h
  · refine ⟨cleanupMap_keys_nodup _ _ h.1, fun uid => ?_⟩
    exact Nat.le_trans (alookup_cleanupMap_length_le _ s.requests uid h.1) (h.2 uid)

theorem isAllowed_good (now : Int) (uid : Nat) (s : RLState) (h : RLGood s) :
    RLGood (isAllowed now uid s).2 := by
  have h1 := cleanupIfNeeded_good now s h
  have hmax := cleanupIfNeeded_maxRequests now s
  simp only [isAllowed]
  split
  · rename_i hlt
    refine ⟨aset_keys_nodup _ _ _ h1.1, fun u => ?_⟩
    by_cases hu : u = uid
    · subst hu
      simp only
      rw [alookup_aset_self, Option.getD_some, List.length_append, List.length_cons,
        List.length_nil]
      omega
    · simp only
      rw [alookup_aset_ne _ _ _ _ hu]
      exact h1.2 u
  · rename_i hge
    refine ⟨aset_keys_nodup _ _ _ h1.1, fun u => ?_⟩
    by_cases hu : u = uid
    · subst hu
      simp only
      rw [alookup_aset_self, Option.getD_some]
      exact Nat.le_trans (trimQueue_length_le _ _) (h1.2 u)
    · simp only
      rw [alookup_aset_ne _ _ _ _ hu]
      exact h1.2 u

theorem isAllowed_maxRequests (now : Int) (uid : Nat) (s : RLState) :
    (isAllowed now uid s).2.maxRequests = s.maxRequests := by
  have hmax := cleanupIfNeeded_maxRequests now s
  simp only [isAllowed]
  split <;> exact hmax

/-- A whole sequence of `is_allowed` calls, each given by its call time
and calling identity, folded over the limiter state. -/
def runCalls (calls : List (Int × Nat)) (s : RLState) : RLState :=
  calls.foldl (fun st c => (isAllowed c.1 c.2 st).2) s

theorem runCalls_good :
    ∀ (calls : List (Int × Nat)) (s : RLState), RLGood s →
      RLGood (runCalls calls s) ∧ (runCalls calls s).maxRequests = s.maxRequests := by
  intro calls
  induction calls with
  | nil => intro s h; exact ⟨h, rfl⟩
  | cons c rest ih =>
    intro s h
    have h1 := isAllowed_good c.1 c.2 s h
    have h2 := isAllowed_maxRequests c.1 c.2 s
    have h3 := ih (isAllowed c.1 c.2 s).2 h1
    exact ⟨h3.1, h3.2.trans h2⟩

/-- C2: starting from a fresh limiter, after any finite sequence of
`is_allowed` calls at arbitrary times, the number of stored events for
any identity whose timestamps lie inside the trailing window
`(obsNow - timeW, obsNow]` never exceeds `max_requests` (in fact the
whole stored queue never does). -/
theorem c2_rate_window_bound (maxR : Nat) (timeW t0 : Int)
    (calls : List (Int × Nat)) (uid : Nat) (obsNow : Int) :
    (((alookup (runCalls calls (rlInit maxR timeW t0)).requests uid).getD []).countP
      (fun t => decide (obsNow - timeW < t) && decide (t ≤ obsNow))) ≤ maxR := by
  have hinit : RLGood (rlInit maxR timeW t0) := by
    refine ⟨List.nodup_nil, fun u => ?_⟩
    simp [rlInit, alookup]
  have h := runCalls_good calls (rlInit maxR timeW t0) hinit
  calc (((alookup (runCalls calls (rlInit maxR timeW t0)).requests uid).getD []).countP
      (fun t => decide (obsNow - timeW < t) && decide (t ≤ obsNow)))
      ≤ ((alookup (runCalls calls (rlInit maxR timeW t0)).requests uid).getD []).length :=
        List.countP_le_length _
    _ ≤ (runCalls calls (rlInit maxR timeW t0)).maxRequests := h.1.2 uid
    _ = maxR := h.2
/-! ## Session manager (src/utils/session.py) -/

/-- The `Message` dataclass (session.py lines 13-26). -/
structure Message where
  role : String
  content : String
  timestamp : Int
deriving DecidableEq

/-- State of a `SessionManager` object (lines 45-61): the bound
`max_history`, the idle bound `session_timeout`, the per-user message
deques (`sessions`) and the per-user activity clock (`last_activity`). -/
structure SMState where
  maxHistory : Nat
  sessionTimeout : Int
  sessions : List (Nat × List Message)
  lastActivity : List (Nat × Int)
deriving DecidableEq

/-- `SessionManager.__init__` (lines 45-61). -/
def smInit (maxHistory : Nat) (sessionTimeout : Int) : SMState :=
  ⟨maxHistory, sessionTimeout, [], []⟩

/-- Append on a `deque(maxlen = m)` (the storage chosen on line 190):
the new element goes to the tail, and the head is discarded when the
bound would otherwise be exceeded. -/
def dqPush {α : Type} (m : Nat) (l : List α) (x : α) : List α :=
  (l ++ [x]).drop ((l ++ [x]).length - m)

/-- `SessionManager._ensure_session_exists` (lines 182-193): create an
empty bounded deque if the user has none, then refresh
`last_activity[user] = now`. -/
def ensureSession (now : Int) (uid : Nat) (s : SMState) : SMState :=
  let s1 := if (alookup s.sessions uid).isSome then s
            else { s with sessions := aset s.sessions uid [] }
  { s1 with lastActivity := aset s1.lastActivity uid now }

/-- `SessionManager._add_message` (lines 195-206): append to the deque
(the `maxlen` bound evicts the oldest entry) and refresh activity. -/
def addMessageRaw (now : Int) (uid : Nat) (msg : Message) (s : SMState) : SMState :=
  { s with
    sessions := aset s.sessions uid
      (dqPush s.maxHistory ((alookup s.sessions uid).getD []) msg),
    lastActivity := aset s.lastActivity uid now }

/-- `SessionManager.add_user_message` (lines 63-75). -/
def addUserMessage (now : Int) (uid : Nat) (content : String) (s : SMState) : SMState :=
  addMessageRaw now uid ⟨"user", content, now⟩ (ensureSession now uid s)

/-- `SessionManager.add_assistant_message` (lines 77-89). -/
def addAssistantMessage (now : Int) (uid : Nat) (content : String) (s : SMState) :
    SMState :=
  addMessageRaw now uid ⟨"assistant", content, now⟩ (ensureSession now uid s)

/-- `SessionManager.get_history` (lines 91-109): refreshes activity via
`_ensure_session_exists`, then returns the role/content projection of
the stored messages, oldest first. -/
def getHistory (now : Int) (uid : Nat) (s : SMState) :
    List (String × String) × SMState :=
  let s1 := ensureSession now uid s
  (((alookup s1.sessions uid).getD []).map (fun msg => (msg.role, msg.content)), s1)

/-- `SessionManager.reset_session` (lines 111-121): clear the deque if
the user has one (the dict entry itself stays), and set
`last_activity[user] = now` unconditionally. -/
def resetSession (now : Int) (uid : Nat) (s : SMState) : SMState :=
  { s with
    sessions := if (alookup s.sessions uid).isSome then aset s.sessions uid []
                else s.sessions,
    lastActivity := aset s.lastActivity uid now }

/-- Result record of `SessionManager.get_session_info`. -/
structure SessionInfo where
  messageCount : Nat
  maxHistory : Nat
  lastActivity : Int
  timeSinceActivity : Int
deriving DecidableEq

/-- `SessionManager.get_session_info` (lines 123-145), with a single
clock reading `now` for the whole call. The Python `int(...)` cast is
the identity on whole seconds. -/
def getSessionInfo (now : Int) (uid : Nat) (s : SMState) : SessionInfo × SMState :=
  let s1 := ensureSession now uid s
  let la := (alookup s1.lastActivity uid).getD 0
  (⟨((alookup s1.sessions uid).getD []).length, s1.maxHistory, la,
    if la > 0 then now - la else 0⟩, s1)

/-- `SessionManager.cleanup_expired_sessions` (lines 147-166): collect
the users whose `last_activity` is more than `session_timeout` seconds
old, delete them (by key) from both dicts, and return how many there
were. -/
def cleanupExpiredSessions (now : Int) (s : SMState) : Nat × SMState :=
  let expired := (s.lastActivity.filter
    (fun p => decide (now - p.2 > s.sessionTimeout))).map Prod.fst
  (expired.length,
   { s with
     sessions := s.sessions.filter (fun p => !expired.contains p.1),
     lastActivity := s.lastActivity.filter (fun p => !expired.contains p.1) })

/-- Reading the caller back right after `_ensure_session_exists`: the
stored deque is the old one, or a fresh empty one if absent. -/
theorem ensureSession_alookup (now : Int) (uid : Nat) (s : SMState) :
    alookup (ensureSession now uid s).sessions uid =
      some ((alookup s.sessions uid).getD []) := by
  unfold ensureSession
  by_cases hs : (alookup s.sessions uid).isSome
  · obtain ⟨q, hq⟩ := Option.isSome_iff_exists.mp hs
    simp only [hs, if_true]
    rw [hq]
    rfl
  · simp only [hs, Bool.false_eq_true, if_false]
    have hnone := Option.not_isSome_iff_eq_none.mp hs
    show alookup (aset s.sessions uid []) uid = some ((alookup s.sessions uid).getD [])
    rw [alookup_aset_self, hnone]
    rfl

theorem ensureSession_alookup_ne (now : Int) (uid u : Nat) (s : SMState)
    (h : u ≠ uid) :
    alookup (ensureSession now uid s).sessions u = alookup s.sessions u := by
  unfold ensureSession
  by_cases hs : (alookup s.sessions uid).isSome
  · simp only [hs, if_true]
  · simp only [hs, Bool.false_eq_true, if_false]
    exact alookup_aset_ne _ _ _ _ h

theorem ensureSession_lastActivity (now : Int) (uid : Nat) (s : SMState) :
    alookup (ensureSession now uid s).lastActivity uid = some now := by
  unfold ensureSession
  by_cases hs : (alookup s.sessions uid).isSome <;>
    simp only [hs, if_true, Bool.false_eq_true, if_false] <;>
    exact alookup_aset_self _ _ _

theorem ensureSession_maxHistory (now : Int) (uid : Nat) (s : SMState) :
    (ensureSession now uid s).maxHistory = s.maxHistory := by
  unfold ensureSession
  by_cases hs : (alookup s.sessions uid).isSome <;> simp [hs]

/-- The bounded deque never exceeds its bound after a push. -/
theorem dqPush_length_le {α : Type} (m : Nat) (l : List α) (x : α) :
    (dqPush m l x).length ≤ m := by
  unfold dqPush
  rw [List.length_drop]
  omega

theorem dqPush_length_eq {α : Type} (m : Nat) (l : List α) (x : α) :
    (dqPush m l x).length = min (l.length + 1) m := by
  unfold dqPush
  rw [List.length_drop, List.length_append]
  simp only [List.length_cons, List.length_nil]
  omega
/-- One append call on the session manager: either
`add_user_message` or `add_assistant_message`, with its clock value. -/
inductive SMOp where
  | user (uid : Nat) (content : String) (time : Int)
  | assistant (uid : Nat) (content : String) (time : Int)
deriving DecidableEq

/-- The identity an append call targets. -/
def SMOp.targetUid : SMOp → Nat
  | .user uid _ _ => uid
  | .assistant uid _ _ => uid

/-- The `Message` value the call constructs (lines 73 and 87). -/
def SMOp.builtMsg : SMOp → Message
  | .user _ c t => ⟨"user", c, t⟩
  | .assistant _ c t => ⟨"assistant", c, t⟩

/-- Run one append call. -/
def applyOp (op : SMOp) (s : SMState) : SMState :=
  match op with
  | .user uid c t => addUserMessage t uid c s
  | .assistant uid c t => addAssistantMessage t uid c s

/-- Run a whole sequence of append calls. -/
def runOps (ops : List SMOp) (s : SMState) : SMState :=
  ops.foldl (fun st op => applyOp op st) s

theorem addMessageRaw_maxHistory (now : Int) (uid : Nat) (msg : Message)
    (s : SMState) : (addMessageRaw now uid msg s).maxHistory = s.maxHistory := rfl

theorem applyOp_maxHistory (op : SMOp) (s : SMState) :
    (applyOp op s).maxHistory = s.maxHistory := by
  cases op with
  | user uid c t =>
    show (addMessageRaw t uid _ (ensureSession t uid s)).maxHistory = s.maxHistory
    rw [addMessageRaw_maxHistory, ensureSession_maxHistory]
  | assistant uid c t =>
    show (addMessageRaw t uid _ (ensureSession t uid s)).maxHistory = s.maxHistory
    rw [addMessageRaw_maxHistory, ensureSession_maxHistory]

/-- The session of the targeted identity after one append call is the
bounded push of the builtMsg message onto its previous session. -/
theorem applyOp_alookup_self (op : SMOp) (s : SMState) :
    alookup (applyOp op s).sessions op.targetUid =
      some (dqPush s.maxHistory ((alookup s.sessions op.targetUid).getD [])
        op.builtMsg) := by
  cases op with
  | user uid c t =>
    show alookup (addMessageRaw t uid ⟨"user", c, t⟩ (ensureSession t uid s)).sessions
      uid = _
    unfold addMessageRaw
    simp only
    rw [alookup_aset_self, ensureSession_alookup]
    rw [ensureSession_maxHistory]
    rfl
  | assistant uid c t =>
    show alookup (addMessageRaw t uid ⟨"assistant", c, t⟩
      (ensureSession t uid s)).sessions uid = _
    unfold addMessageRaw
    simp only
    rw [alookup_aset_self, ensureSession_alookup]
    rw [ensureSession_maxHistory]
    rfl

/-- An append call leaves other identities untouched. -/
theorem applyOp_alookup_ne (op : SMOp) (s : SMState) (u : Nat)
    (h : u ≠ op.targetUid) :
    alookup (applyOp op s).sessions u = alookup s.sessions u := by
  cases op with
  | user uid c t =>
    have h2 : u ≠ uid := h
    show alookup (addMessageRaw t uid ⟨"user", c, t⟩ (ensureSession t uid s)).sessions
      u = _
    unfold addMessageRaw
    simp only
    rw [alookup_aset_ne _ _ _ _ h2, ensureSession_alookup_ne _ _ _ _ h2]
  | assistant uid c t =>
    have h2 : u ≠ uid := h
    show alookup (addMessageRaw t uid ⟨"assistant", c, t⟩
      (ensureSession t uid s)).sessions u = _
    unfold addMessageRaw
    simp only
    rw [alookup_aset_ne _ _ _ _ h2, ensureSession_alookup_ne _ _ _ _ h2]

/-- Session bound invariant: every stored deque respects `max_history`. -/
def SMGood (s : SMState) : Prop :=
  ∀ uid, ((alookup s.sessions uid).getD []).length ≤ s.maxHistory

theorem applyOp_good (op : SMOp) (s : SMState) (h : SMGood s) :
    SMGood (applyOp op s) := by
  intro u
  rw [applyOp_maxHistory]
  by_cases hu : u = op.targetUid
  · subst hu
    rw [applyOp_alookup_self, Option.getD_some]
    exact dqPush_length_le _ _ _
  · rw [applyOp_alookup_ne op s u hu]
    exact h u

theorem runOps_good :
    ∀ (ops : List SMOp) (s : SMState), SMGood s →
      SMGood (runOps ops s) ∧ (runOps ops s).maxHistory = s.maxHistory := by
  intro ops
  induction ops with
  | nil => intro s h; exact ⟨h, rfl⟩
  | cons op rest ih =>
    intro s h
    have h1 := applyOp_good op s h
    have h2 := ih (applyOp op s) h1
    exact ⟨h2.1, h2.2.trans (applyOp_maxHistory op s)⟩

/-- Taking the last `m` elements twice around an append collapses. -/
theorem lastN_append_lastN {α : Type} (m : Nat) (L xs : List α) :
    (L.drop (L.length - m) ++ xs).drop ((L.drop (L.length - m) ++ xs).length - m) =
    (L ++ xs).drop ((L ++ xs).length - m) := by
  by_cases h : L.length ≤ m
  · have h0 : L.length - m = 0 := by omega
    rw [h0, List.drop_zero]
  · have hd : L.length - m ≤ L.length := Nat.sub_le _ _
    rw [← List.drop_append_of_le_length hd]
    rw [List.drop_drop]
    congr 1
    simp only [List.length_drop, List.length_append]
    omega

/-- Folding bounded pushes is taking the last `m` of the concatenation
(FIFO eviction). -/
theorem foldl_dqPush_eq {α : Type} (m : Nat) :
    ∀ (msgs : List α) (q : List α), q.length ≤ m →
      List.foldl (fun acc x => dqPush m acc x) q msgs =
        (q ++ msgs).drop ((q ++ msgs).length - m) := by
  intro msgs
  induction msgs with
  | nil =>
    intro q hq
    simp only [List.foldl_nil, List.append_nil]
    have h0 : q.length - m = 0 := by omega
    rw [h0, List.drop_zero]
  | cons x xs ih =>
    intro q hq
    simp only [List.foldl_cons]
    rw [ih (dqPush m q x) (dqPush_length_le m q x)]
    have hdq : dqPush m q x = (q ++ [x]).drop ((q ++ [x]).length - m) := rfl
    rw [hdq]
    rw [lastN_append_lastN m (q ++ [x]) xs, List.append_assoc]
    rfl
/-- `get_history` is the role/content projection of the stored deque
(creating an empty one on first reference). -/
theorem getHistory_fst (now : Int) (uid : Nat) (s : SMState) :
    (getHistory now uid s).1 =
      ((alookup s.sessions uid).getD []).map (fun msg => (msg.role, msg.content)) := by
  unfold getHistory
  simp only
  rw [ensureSession_alookup]
  rfl

/-- After a run of append calls all targeting `uid`, the stored deque
for `uid` is the fold of bounded pushes of the built messages. -/
theorem runOps_alookup_target :
    ∀ (ops : List SMOp) (s : SMState) (uid : Nat),
      (∀ op ∈ ops, op.targetUid = uid) →
      ((alookup (runOps ops s).sessions uid).getD []) =
        List.foldl (fun acc msg => dqPush s.maxHistory acc msg)
          ((alookup s.sessions uid).getD []) (ops.map SMOp.builtMsg) := by
  intro ops
  induction ops with
  | nil => intro s uid _; rfl
  | cons op rest ih =>
    intro s uid hall
    have hop : op.targetUid = uid := hall op (List.mem_cons_self _ _)
    have hrest : ∀ o ∈ rest, o.targetUid = uid :=
      fun o ho => hall o (List.mem_cons_of_mem _ ho)
    show ((alookup (runOps rest (applyOp op s)).sessions uid).getD []) = _
    rw [ih (applyOp op s) uid hrest]
    rw [applyOp_maxHistory]
    have hself := applyOp_alookup_self op s
    rw [hop] at hself
    rw [hself]
    simp only [Option.getD_some, List.map_cons, List.foldl_cons]

/-- C3: for any sequence of append calls starting from a fresh store,
the history returned for any identity never exceeds `max_history`; and
when `max_history + k` entries (`k ≥ 1`) have been appended for one
identity, its history is exactly the last `max_history` entries, oldest
first, in their original order (FIFO eviction of the first `k`). -/
theorem c3_history_fifo (m : Nat) (tmo : Int) (ops : List SMOp) (uid : Nat)
    (now : Int) (k : Nat) :
    ((getHistory now uid (runOps ops (smInit m tmo))).1).length ≤ m ∧
    ((∀ op ∈ ops, op.targetUid = uid) → ops.length = m + k → 1 ≤ k →
      (getHistory now uid (runOps ops (smInit m tmo))).1 =
        ((ops.map SMOp.builtMsg).map (fun msg => (msg.role, msg.content))).drop k) := by
  constructor
  · rw [getHistory_fst, List.length_map]
    have hinit : SMGood (smInit m tmo) := by
      intro u
      show (((alookup [] u).getD []).length) ≤ m
      exact Nat.zero_le m
    have h := runOps_good ops (smInit m tmo) hinit
    exact Nat.le_trans (h.1 uid) (Nat.le_of_eq h.2)
  · intro hall hlen hk
    rw [getHistory_fst]
    rw [runOps_alookup_target ops (smInit m tmo) uid hall]
    have hbase : ((alookup (smInit m tmo).sessions uid).getD []) = ([] : List Message) :=
      rfl
    rw [hbase]
    have hm : (smInit m tmo).maxHistory = m := rfl
    rw [hm]
    rw [foldl_dqPush_eq m (ops.map SMOp.builtMsg) [] (Nat.zero_le m)]
    rw [List.nil_append, List.length_map, hlen]
    have harith : m + k - m = k := by omega
    rw [harith, List.map_drop]

/-- Concrete instance for `c3_history_fifo`: `max_history = 2`, three
appends for user 1; the history is the last two entries in order. -/
theorem c3_history_fifo_witness :
    (getHistory 5 1 (runOps
      [SMOp.user 1 "a" 0, SMOp.assistant 1 "b" 1, SMOp.user 1 "c" 2]
      (smInit 2 3600))).1 = [("assistant", "b"), ("user", "c")] := by
  have h := (c3_history_fifo 2 3600
    [SMOp.user 1 "a" 0, SMOp.assistant 1 "b" 1, SMOp.user 1 "c" 2] 1 5 1).2
    (by decide) (by decide) (by decide)
  rw [h]
  rfl

/-- C7: `reset_session` leaves an empty history (an immediately
following `get_history` returns `[]`), an immediately following
`get_session_info` reports `message_count = 0`, and `last_activity` is
set to the reset time. -/
theorem c7_reset_clears (now now2 : Int) (uid : Nat) (s : SMState) :
    (getHistory now2 uid (resetSession now uid s)).1 = [] ∧
    ((getSessionInfo now2 uid (resetSession now uid s)).1).messageCount = 0 ∧
    alookup (resetSession now uid s).lastActivity uid = some now := by
  have hempty : ((alookup (resetSession now uid s).sessions uid).getD []) = [] := by
    unfold resetSession
    simp only
    by_cases hs : (alookup s.sessions uid).isSome
    · rw [if_pos hs, alookup_aset_self]
      rfl
    · rw [if_neg hs, Option.not_isSome_iff_eq_none.mp hs]
      rfl
  refine ⟨?_, ?_, ?_⟩
  · rw [getHistory_fst, hempty]
    rfl
  · show (((alookup (ensureSession now2 uid
        (resetSession now uid s)).sessions uid).getD []).length) = 0
    rw [ensureSession_alookup, Option.getD_some, hempty]
    rfl
  · unfold resetSession
    simp only
    exact alookup_aset_self _ _ _

/-- C10: `get_session_info` refreshes `last_activity` to the current
time before reading it (lazily creating an empty session if absent), so
the reported `time_since_activity` is always `0` for a single clock
reading, and the reported message count is that of the stored deque. -/
theorem c10_info_refreshes (now : Int) (uid : Nat) (s : SMState) :
    ((getSessionInfo now uid s).1).timeSinceActivity = 0 ∧
    ((getSessionInfo now uid s).1).lastActivity = now ∧
    alookup ((getSessionInfo now uid s).2).lastActivity uid = some now ∧
    alookup ((getSessionInfo now uid s).2).sessions uid =
      some ((alookup s.sessions uid).getD []) ∧
    ((getSessionInfo now uid s).1).messageCount =
      ((alookup s.sessions uid).getD []).length := by
  refine ⟨?_, ?_, ?_, ?_, ?_⟩
  · show (if ((alookup (ensureSession now uid s).lastActivity uid).getD 0) > 0 then
        now - ((alookup (ensureSession now uid s).lastActivity uid).getD 0)
      else 0) = 0
    rw [ensureSession_lastActivity, Option.getD_some]
    by_cases hpos : now > 0
    · rw [if_pos hpos]
      omega
    · rw [if_neg hpos]
  · show ((alookup (ensureSession now uid s).lastActivity uid).getD 0) = now
    rw [ensureSession_lastActivity]
    rfl
  · show alookup (ensureSession now uid s).lastActivity uid = some now
    exact ensureSession_lastActivity now uid s
  · show alookup (ensureSession now uid s).sessions uid = _
    exact ensureSession_alookup now uid s
  · show (((alookup (ensureSession now uid s).sessions uid).getD []).length) = _
    rw [ensureSession_alookup, Option.getD_some]
/-- Deleting a set of keys from a dict commutes with lookup. -/
theorem alookup_filter_not_contains {α : Type} (ex : List Nat) :
    ∀ (l : List (Nat × α)) (key : Nat),
      alookup (l.filter (fun p => !ex.contains p.1)) key =
        if ex.contains key then none else alookup l key := by
  intro l
  induction l with
  | nil =>
    intro key
    by_cases hc : ex.contains key
    · simp [alookup, hc]
    · simp [alookup, hc]
  | cons hd tl ih =>
    intro key
    obtain ⟨k, v⟩ := hd
    rw [List.filter_cons]
    by_cases hpk : ex.contains k = true
    · have hcond : (!ex.contains (k, v).1) = false := by
        show (!ex.contains k) = false
        rw [hpk]
        rfl
      rw [hcond]
      simp only [Bool.false_eq_true, if_false]
      rw [ih]
      by_cases hk : key = k
      · subst hk
        rw [if_pos hpk, if_pos hpk]
      · have hskip : alookup ((k, v) :: tl) key = alookup tl key := by
          rw [alookup, if_neg hk]
        rw [hskip]
    · have hkf : ex.contains k = false := by
        cases hcb : ex.contains k
        · rfl
        · exact absurd hcb hpk
      have hcond : (!ex.contains (k, v).1) = true := by
        show (!ex.contains k) = true
        rw [hkf]
        rfl
      rw [hcond]
      simp only [if_true]
      by_cases hk : key = k
      · subst hk
        have h1 : alookup ((key, v) :: List.filter (fun p => !ex.contains p.1) tl)
            key = some v := by
          rw [alookup, if_pos rfl]
        have h2 : alookup ((key, v) :: tl) key = some v := by
          rw [alookup, if_pos rfl]
        rw [h1, h2, hkf]
        simp only [Bool.false_eq_true, if_false]
      · have h1 : alookup ((k, v) :: List.filter (fun p => !ex.contains p.1) tl)
            key = alookup (List.filter (fun p => !ex.contains p.1) tl) key := by
          rw [alookup, if_neg hk]
        have h2 : alookup ((k, v) :: tl) key = alookup tl key := by
          rw [alookup, if_neg hk]
        rw [h1, h2]
        exact ih key

theorem alookup_mem_of_some {α : Type} :
    ∀ (l : List (Nat × α)) (key : Nat) (v : α),
      alookup l key = some v → (key, v) ∈ l := by
  intro l
  induction l with
  | nil => intro key v h; simp [alookup] at h
  | cons hd tl ih =>
    intro key v h
    obtain ⟨k, u⟩ := hd
    by_cases hk : key = k
    · subst hk
      rw [alookup, if_pos rfl] at h
      rw [Option.some_inj] at h
      subst h
      exact List.mem_cons_self _ _
    · rw [alookup, if_neg hk] at h
      exact List.mem_cons_of_mem _ (ih key v h)

/-- Under distinct keys, two stored pairs with the same key agree. -/
theorem value_unique_of_nodup_keys {α : Type} :
    ∀ (l : List (Nat × α)) (k : Nat) (a b : α), (l.map Prod.fst).Nodup →
      (k, a) ∈ l → (k, b) ∈ l → a = b := by
  intro l
  induction l with
  | nil => intro k a b _ ha _; simp at ha
  | cons hd tl ih =>
    intro k a b hnd ha hb
    obtain ⟨k0, c⟩ := hd
    simp only [List.map_cons, List.nodup_cons] at hnd
    rcases List.mem_cons.mp ha with ha1 | ha2
    · rcases List.mem_cons.mp hb with hb1 | hb2
      · rw [Prod.mk.injEq] at ha1 hb1
        rw [ha1.2, hb1.2]
      · exfalso
        rw [Prod.mk.injEq] at ha1
        apply hnd.1
        rw [← ha1.1]
        exact List.mem_map_of_mem Prod.fst hb2
    · rcases List.mem_cons.mp hb with hb1 | hb2
      · exfalso
        rw [Prod.mk.injEq] at hb1
        apply hnd.1
        rw [← hb1.1]
        exact List.mem_map_of_mem Prod.fst ha2
      · exact ih k a b hnd.2 ha2 hb2

/-- Under distinct keys, an identity is in the expired list collected
by `cleanup_expired_sessions` exactly when its own recorded activity is
stale. -/
theorem contains_expired_iff (now tmo : Int) (l : List (Nat × Int)) (uid : Nat)
    (la : Int) (hnd : (l.map Prod.fst).Nodup) (hla : alookup l uid = some la) :
    ((l.filter (fun p => decide (now - p.2 > tmo))).map Prod.fst).contains uid = true ↔
      now - la > tmo := by
  rw [List.contains_iff_exists_mem_beq]
  constructor
  · rintro ⟨k, hk, hbeq⟩
    have hkuid : uid = k := eq_of_beq hbeq
    rw [← hkuid] at hk
    obtain ⟨p, hp, hfst⟩ := List.mem_map.mp hk
    obtain ⟨hpl, hpred⟩ := List.mem_filter.mp hp
    obtain ⟨pk, pv⟩ := p
    simp only at hfst
    have hfst2 : uid = pk := hfst.symm
    subst hfst2
    have hmem1 : (uid, la) ∈ l := alookup_mem_of_some l uid la hla
    have heq : pv = la := value_unique_of_nodup_keys l uid pv la hnd hpl hmem1
    subst heq
    exact of_decide_eq_true hpred
  · intro hstale
    refine ⟨uid, ?_, ?_⟩
    · refine List.mem_map.mpr ⟨(uid, la), ?_, rfl⟩
      apply List.mem_filter.mpr
      exact ⟨alookup_mem_of_some l uid la hla, decide_eq_true hstale⟩
    · exact beq_self_eq_true uid

/-- C9: sweeping twice with the same clock and no intervening activity
finds nothing to remove the second time and leaves the store unchanged;
and a session is removed by the sweep exactly when its recorded
activity is older than `session_timeout`. -/
theorem c9_sweep_idempotent (now : Int) (s : SMState)
    (hnd : (s.lastActivity.map Prod.fst).Nodup) :
    (cleanupExpiredSessions now (cleanupExpiredSessions now s).2).1 = 0 ∧
    (cleanupExpiredSessions now (cleanupExpiredSessions now s).2).2 =
      (cleanupExpiredSessions now s).2 ∧
    (∀ uid la, alookup s.lastActivity uid = some la →
      (alookup (cleanupExpiredSessions now s).2.lastActivity uid =
        if now - la > s.sessionTimeout then none else some la) ∧
      (now - la > s.sessionTimeout →
        alookup (cleanupExpiredSessions now s).2.sessions uid = none) ∧
      (¬ now - la > s.sessionTimeout →
        alookup (cleanupExpiredSessions now s).2.sessions uid =
          alookup s.sessions uid)) := by
  have hsurv : ∀ p ∈ (cleanupExpiredSessions now s).2.lastActivity,
      ¬ (decide (now - p.2 > s.sessionTimeout) = true) := by
    intro p hp
    obtain ⟨hpl, hkeep⟩ := List.mem_filter.mp hp
    intro hstale
    have hcont : ((s.lastActivity.filter
        (fun q => decide (now - q.2 > s.sessionTimeout))).map Prod.fst).contains p.1 := by
      rw [List.contains_iff_exists_mem_beq]
      refine ⟨p.1, ?_, beq_self_eq_true _⟩
      exact List.mem_map_of_mem Prod.fst (List.mem_filter.mpr ⟨hpl, hstale⟩)
    rw [hcont] at hkeep
    simp at hkeep
  have hexp2 : ((cleanupExpiredSessions now s).2.lastActivity.filter
      (fun p => decide (now - p.2 > s.sessionTimeout))) = [] :=
    List.filter_eq_nil_iff.mpr hsurv
  refine ⟨?_, ?_, ?_⟩
  · show ((((cleanupExpiredSessions now s).2.lastActivity.filter
      (fun p => decide (now - p.2 > (cleanupExpiredSessions now s).2.sessionTimeout))).map
        Prod.fst).length) = 0
    have htmo : (cleanupExpiredSessions now s).2.sessionTimeout = s.sessionTimeout := rfl
    rw [htmo, hexp2]
    rfl
  · show SMState.mk _ _ _ _ = SMState.mk _ _ _ _
    have htmo : (cleanupExpiredSessions now s).2.sessionTimeout = s.sessionTimeout := rfl
    congr 1
    · rw [htmo, hexp2]
      show List.filter _ ((cleanupExpiredSessions now s).2.sessions) = _
      apply List.filter_eq_self.mpr
      intro a _
      rfl
    · rw [htmo, hexp2]
      show List.filter _ ((cleanupExpiredSessions now s).2.lastActivity) = _
      apply List.filter_eq_self.mpr
      intro a _
      rfl
  · intro uid la hla
    have hiff := contains_expired_iff now s.sessionTimeout s.lastActivity uid la hnd hla
    refine ⟨?_, ?_, ?_⟩
    · show alookup (s.lastActivity.filter (fun p => !(List.contains _ p.1))) uid = _
      rw [alookup_filter_not_contains]
      by_cases hc : ((s.lastActivity.filter
          (fun p => decide (now - p.2 > s.sessionTimeout))).map Prod.fst).contains uid =
          true
      · rw [if_pos hc, if_pos (hiff.mp hc)]
      · have hcf : ((s.lastActivity.filter
            (fun p => decide (now - p.2 > s.sessionTimeout))).map Prod.fst).contains uid =
            false := by
          cases hcb : ((s.lastActivity.filter
            (fun p => decide (now - p.2 > s.sessionTimeout))).map Prod.fst).contains uid
          · rfl
          · exact absurd hcb hc
        have hfresh : ¬ now - la > s.sessionTimeout := fun hs => hc (hiff.mpr hs)
        rw [hcf]
        simp only [Bool.false_eq_true, if_false]
        rw [if_neg hfresh]
        exact hla
    · intro hstale
      show alookup (s.sessions.filter (fun p => !(List.contains _ p.1))) uid = none
      rw [alookup_filter_not_contains]
      rw [if_pos (hiff.mpr hstale)]
    · intro hfresh
      show alookup (s.sessions.filter (fun p => !(List.contains _ p.1))) uid = _
      rw [alookup_filter_not_contains]
      have hnc : ((s.lastActivity.filter
          (fun p => decide (now - p.2 > s.sessionTimeout))).map Prod.fst).contains uid =
          false := by
        cases hcb : ((s.lastActivity.filter
          (fun p => decide (now - p.2 > s.sessionTimeout))).map Prod.fst).contains uid
        · rfl
        · exact absurd (hiff.mp hcb) hfresh
      rw [hnc]
      simp only [Bool.false_eq_true, if_false]
/-- Concrete instance for `c9_sweep_idempotent`: with timeout 10 at
time 100, user 1 (idle since time 0) is removed by the first sweep, the
second sweep finds nothing, and user 2 (active at 95) survives. -/
theorem c9_sweep_idempotent_witness :
    (cleanupExpiredSessions 100 (cleanupExpiredSessions 100
      (⟨5, 10, [(1, []), (2, [])], [(1, 0), (2, 95)]⟩ : SMState)).2).1 = 0 ∧
    alookup (cleanupExpiredSessions 100
      (⟨5, 10, [(1, []), (2, [])], [(1, 0), (2, 95)]⟩ : SMState)).2.lastActivity 1 =
      none ∧
    alookup (cleanupExpiredSessions 100
      (⟨5, 10, [(1, []), (2, [])], [(1, 0), (2, 95)]⟩ : SMState)).2.lastActivity 2 =
      some 95 := by
  have h := c9_sweep_idempotent 100 ⟨5, 10, [(1, []), (2, [])], [(1, 0), (2, 95)]⟩
    (by decide)
  refine ⟨h.1, ?_, ?_⟩
  · have h2 := (h.2.2 1 0 (by decide)).1
    rw [h2]
    decide
  · have h2 := (h.2.2 2 95 (by decide)).1
    rw [h2]
    decide
/-! ## Input validator (src/utils/validators.py)

The dangerous-content scan uses `re.search` with `re.IGNORECASE`. The
regexes of the pattern table are embedded with a standard Brzozowski
derivative matcher over character classes, which decides exactly the
"some substring matches" question that `re.search` answers here (no
captures are used). Case insensitivity is modelled by lowercasing both
the text and the literal parts of the patterns. -/

/-- The whitespace characters stripped by Python `str.strip()` and
matched by the regex class `\s` (ASCII range). -/
def pyIsSpace (c : Char) : Bool :=
  c = ' ' || c = '\t' || c = '\n' || c = '\r' || c = '\x0b' || c = '\x0c'

/-- Python `str.strip()`: drop leading and trailing whitespace. -/
def pyStrip (l : List Char) : List Char :=
  ((l.dropWhile pyIsSpace).reverse.dropWhile pyIsSpace).reverse

/-- Word characters of the regex class `\w` (ASCII range). -/
def isWordChar (c : Char) : Bool := c.isAlpha || c.isDigit || c = '_'

/-- Regular expressions over characters, sufficient for the pattern
table `InputValidator.DANGEROUS_PATTERNS`: character classes,
concatenation, alternation and Kleene star. -/
inductive Reg where
  | emp : Reg
  | eps : Reg
  | chClass : (Char → Bool) → Reg
  | seq : Reg → Reg → Reg
  | alt : Reg → Reg → Reg
  | star : Reg → Reg

/-- Smart concatenation (keeps derivative terms small). -/
def mkSeq : Reg → Reg → Reg
  | .emp, _ => .emp
  | _, .emp => .emp
  | .eps, r => r
  | r, .eps => r
  | r, s => .seq r s

/-- Smart alternation. -/
def mkAlt : Reg → Reg → Reg
  | .emp, r => r
  | r, .emp => r
  | r, s => .alt r s

/-- Does the regex accept the empty string? -/
def nullable : Reg → Bool
  | .emp => false
  | .eps => true
  | .chClass _ => false
  | .seq r s => nullable r && nullable s
  | .alt r s => nullable r || nullable s
  | .star _ => true

/-- Brzozowski derivative by one character. -/
def rderiv : Reg → Char → Reg
  | .emp, _ => .emp
  | .eps, _ => .emp
  | .chClass p, c => if p c then .eps else .emp
  | .seq r s, c =>
    if nullable r then mkAlt (mkSeq (rderiv r c) s) (rderiv s c)
    else mkSeq (rderiv r c) s
  | .alt r s, c => mkAlt (rderiv r c) (rderiv s c)
  | .star r, c => mkSeq (rderiv r c) (.star r)

/-- Full-string match by iterated derivative. -/
def rmatch (r : Reg) (s : List Char) : Bool :=
  nullable (s.foldl rderiv r)

/-- A class matching any character (the implicit context around a
`re.search` pattern). -/
def anyChar : Reg := .chClass (fun _ => true)

/-- `re.search(r, s)`: some substring of `s` matches `r`. -/
def rsearch (r : Reg) (s : List Char) : Bool :=
  rmatch (.seq (.star anyChar) (.seq r (.star anyChar))) s

/-- Literal word. -/
def rlit (w : List Char) : Reg :=
  w.foldr (fun c acc => Reg.seq (.chClass (fun d => d = c)) acc) .eps

/-- `x+` (one or more). -/
def rplus (r : Reg) : Reg := .seq r (.star r)

/-- The regex `.` metachar: any character except a newline (the
patterns are compiled without `re.DOTALL`). -/
def rdot : Reg := .chClass (fun c => !(c = '\n'))

/-- `InputValidator.DANGEROUS_PATTERNS` (validators.py lines 26-37),
in the same order, over lowercased text:
`<script`, `javascript:`, `on\w+\s*=`, `DROP\s+TABLE`, `DELETE\s+FROM`,
`INSERT\s+INTO`, `UPDATE\s+\w+\s+SET`, `;.*rm\s+-rf`, `&&.*rm\s+-rf`
and `\|\|.*rm\s+-rf`. -/
def dangerousPatterns : List Reg :=
  [ rlit "<script".toList,
    rlit "javascript:".toList,
    .seq (rlit "on".toList) (.seq (rplus (.chClass isWordChar))
      (.seq (.star (.chClass pyIsSpace)) (rlit "=".toList))),
    .seq (rlit "drop".toList) (.seq (rplus (.chClass pyIsSpace)) (rlit "table".toList)),
    .seq (rlit "delete".toList) (.seq (rplus (.chClass pyIsSpace)) (rlit "from".toList)),
    .seq (rlit "insert".toList) (.seq (rplus (.chClass pyIsSpace)) (rlit "into".toList)),
    .seq (rlit "update".toList) (.seq (rplus (.chClass pyIsSpace))
      (.seq (rplus (.chClass isWordChar)) (.seq (rplus (.chClass pyIsSpace))
        (rlit "set".toList)))),
    .seq (rlit ";".toList) (.seq (.star rdot) (.seq (rlit "rm".toList)
      (.seq (rplus (.chClass pyIsSpace)) (rlit "-rf".toList)))),
    .seq (rlit "&&".toList) (.seq (.star rdot) (.seq (rlit "rm".toList)
      (.seq (rplus (.chClass pyIsSpace)) (rlit "-rf".toList)))),
    .seq (rlit "||".toList) (.seq (.star rdot) (.seq (rlit "rm".toList)
      (.seq (rplus (.chClass pyIsSpace)) (rlit "-rf".toList)))) ]

/-- The dangerous-content scan (lines 69-71): `re.search` of each
pattern against the trimmed text, `re.IGNORECASE` modelled by
lowercasing. -/
def containsDangerous (l : List Char) : Bool :=
  dangerousPatterns.any (fun r => rsearch r (l.map Char.toLower))

/-- `InputValidator._strip_html` (lines 79-92): `re.sub` of `<[^>]+>`
with the empty string. A tag is `<`, one or more non-`>` characters,
then `>`; the scan is leftmost and non-overlapping, exactly as `re.sub`
proceeds. One fuel unit is used per character emitted or tag skipped,
so `fuel = length` always suffices (the wrapper below supplies it). -/
def stripHtmlF : Nat → List Char → List Char
  | 0, l => l
  | _ + 1, [] => []
  | fuel + 1, c :: rest =>
    if c = '<' then
      match rest.dropWhile (fun d => !(d = '>')) with
      | _ :: rest2 =>
        if (rest.takeWhile (fun d => !(d = '>'))).isEmpty then
          c :: stripHtmlF fuel rest
        else stripHtmlF fuel rest2
      | [] => c :: stripHtmlF fuel rest
    else c :: stripHtmlF fuel rest

/-- `_strip_html` at adequate fuel. -/
def stripHtml (l : List Char) : List Char := stripHtmlF l.length l

/-- `InputValidator.MAX_MESSAGE_LENGTH` (line 23). -/
def maxMessageLength : Nat := 500

/-- `InputValidator.validate_message` (lines 39-77): reject empty or
whitespace-only input; trim; reject over-length input (checked on the
trimmed text, before any pattern scan); reject dangerous content;
otherwise strip markup tags and accept. A pure function. -/
def validateMessage (text : String) : Bool × String × String :=
  if text.toList.isEmpty || (pyStrip text.toList).isEmpty then
    (false, "", "Message cannot be empty")
  else if (pyStrip text.toList).length > maxMessageLength then
    (false, "", "Message too long (max 500 characters)")
  else if containsDangerous (pyStrip text.toList) then
    (false, "", "Message contains potentially dangerous content")
  else (true, String.mk (stripHtml (pyStrip text.toList)), "")
/-- An empty raw text strips to an empty text. -/
theorem pyStrip_of_isEmpty (text : String) (he : text.toList.isEmpty = true) :
    (pyStrip text.toList).isEmpty = true := by
  have h0 : text.toList = [] := List.isEmpty_iff.mp he
  rw [h0]
  rfl

/-- C4: `validate_message` rejects null/empty/whitespace-only input as
empty; rejects over-length trimmed input (the length check is on the
trimmed text and happens before any pattern scanning); rejects trimmed
input matching a dangerous pattern (case-insensitive); and otherwise
accepts, returning the trimmed text with every markup tag `<...>`
stripped. The two sanitizer round-trips of the spec hold. The model is
a pure function, matching the no-side-effects clause. -/
theorem c4_validate_message (text : String) :
    ((text.toList.isEmpty || (pyStrip text.toList).isEmpty) = true →
      validateMessage text = (false, "", "Message cannot be empty")) ∧
    ((pyStrip text.toList).isEmpty = false →
      (pyStrip text.toList).length > maxMessageLength →
      validateMessage text = (false, "", "Message too long (max 500 characters)")) ∧
    ((pyStrip text.toList).isEmpty = false →
      ¬ (pyStrip text.toList).length > maxMessageLength →
      containsDangerous (pyStrip text.toList) = true →
      validateMessage text =
        (false, "", "Message contains potentially dangerous content")) ∧
    ((pyStrip text.toList).isEmpty = false →
      ¬ (pyStrip text.toList).length > maxMessageLength →
      containsDangerous (pyStrip text.toList) = false →
      validateMessage text =
        (true, String.mk (stripHtml (pyStrip text.toList)), "")) ∧
    validateMessage "  hello  " = (true, "hello", "") ∧
    validateMessage "Hello <b>world</b>" = (true, "Hello world", "") := by
  have hor : (pyStrip text.toList).isEmpty = false →
      (text.toList.isEmpty || (pyStrip text.toList).isEmpty) = false := by
    intro hne
    cases he : text.toList.isEmpty
    · rw [hne]
      rfl
    · exact absurd (pyStrip_of_isEmpty text he) (by rw [hne]; exact Bool.false_ne_true)
  refine ⟨?_, ?_, ?_, ?_, by decide, by decide⟩
  · intro h
    unfold validateMessage
    rw [if_pos h]
  · intro hne hlen
    unfold validateMessage
    rw [hor hne]
    simp only [Bool.false_eq_true, if_false]
    rw [if_pos hlen]
  · intro hne hlen hcd
    unfold validateMessage
    rw [hor hne]
    simp only [Bool.false_eq_true, if_false]
    rw [if_neg hlen, if_pos hcd]
  · intro hne hlen hcd
    unfold validateMessage
    rw [hor hne]
    simp only [Bool.false_eq_true, if_false]
    rw [if_neg hlen, hcd]
    simp only [Bool.false_eq_true, if_false]

/-- Concrete instance for `c4_validate_message`: an SQL-mutation
payload is rejected as dangerous content. -/
theorem c4_validate_message_witness :
    validateMessage "DROP TABLE users" =
      (false, "", "Message contains potentially dangerous content") :=
  (c4_validate_message "DROP TABLE users").2.2.1 (by decide) (by decide) (by decide)
/-- Characters of the class `[a-zA-Z0-9-_]` in the API-key regex. -/
def isKeyChar (c : Char) : Bool := c.isAlpha || c.isDigit || c = '-' || c = '_'

/-- First redaction pass of `sanitize_for_logging` (validators.py line
122): `re.sub` of `sk-[a-zA-Z0-9-_]+` with `[REDACTED_API_KEY]`. The
scan is leftmost and non-overlapping; the greedy `+` takes the maximal
run of class characters. One fuel unit per step; `fuel = length`
always suffices. -/
def redactKeysF : Nat → List Char → List Char
  | 0, l => l
  | _ + 1, [] => []
  | fuel + 1, c :: rest =>
    if c = 's' then
      match rest with
      | 'k' :: '-' :: d :: rest2 =>
        if isKeyChar d then
          "[REDACTED_API_KEY]".toList ++
            redactKeysF fuel ((d :: rest2).dropWhile isKeyChar)
        else c :: redactKeysF fuel rest
      | _ => c :: redactKeysF fuel rest
    else c :: redactKeysF fuel rest

/-- The API-key pass at adequate fuel. -/
def redactKeys (l : List Char) : List Char := redactKeysF l.length l

/-- Second redaction pass (line 123): `re.sub` of `\b\d{10,}\b` with
`[REDACTED_NUMBER]`. Digits are word characters, so a match is exactly
a maximal run of at least ten digits whose neighbours (if any) are
non-word characters; no starting position inside or beside a
letter-flanked run satisfies the boundaries. `prevIsWord` carries
whether the character before the current position in the original text
is a word character (false at the start of the text). -/
def redactDigitsF : Nat → Bool → List Char → List Char
  | 0, _, l => l
  | _ + 1, _, [] => []
  | fuel + 1, prevIsWord, c :: rest =>
    if c.isDigit && !prevIsWord then
      if 10 ≤ ((c :: rest).takeWhile (fun d => d.isDigit)).length &&
          (match (c :: rest).dropWhile (fun d => d.isDigit) with
           | [] => true
           | d :: _ => !isWordChar d) then
        "[REDACTED_NUMBER]".toList ++
          redactDigitsF fuel true ((c :: rest).dropWhile (fun d => d.isDigit))
      else c :: redactDigitsF fuel (isWordChar c) rest
    else c :: redactDigitsF fuel (isWordChar c) rest

/-- The digit-run pass at adequate fuel. -/
def redactDigits (l : List Char) : List Char := redactDigitsF l.length false l

/-- Separator class `[:\s=]` of the password regex. -/
def isSepChar (c : Char) : Bool := c = ':' || c = '=' || pyIsSpace c

/-- Where `[:\s=]+\S+` matches (greedily, with Python backtracking) at
the head of `rest`: returns the remainder after the match, `none` when
there is no match here. When the separator run is followed by a
further character, that character is outside the class hence not
whitespace, and `\S+` eats the maximal non-space run from it. When the
separator run reaches the end of the text the engine backtracks: the
match ends after the last non-space separator, which must be preceded
by at least one separator; only trailing whitespace remains. -/
def sepTail (rest : List Char) : Option (List Char) :=
  if (rest.takeWhile isSepChar).isEmpty then none
  else
    match rest.dropWhile isSepChar with
    | d :: after => some ((d :: after).dropWhile (fun c => !pyIsSpace c))
    | [] =>
      match (rest.takeWhile isSepChar).reverse.dropWhile pyIsSpace with
      | [] => none
      | _ :: [] => none
      | _ :: _ :: _ =>
        some ((rest.takeWhile isSepChar).reverse.takeWhile pyIsSpace).reverse

/-- Third redaction pass (lines 124-126): `re.sub` of
`password[:\s=]+\S+` with `password:[REDACTED]`, `re.IGNORECASE`. -/
def redactPasswordF : Nat → List Char → List Char
  | 0, l => l
  | _ + 1, [] => []
  | fuel + 1, c :: rest =>
    if ((c :: rest).take 8).map Char.toLower = "password".toList then
      match sepTail ((c :: rest).drop 8) with
      | some rem => "password:[REDACTED]".toList ++ redactPasswordF fuel rem
      | none => c :: redactPasswordF fuel rest
    else c :: redactPasswordF fuel rest

/-- The password pass at adequate fuel. -/
def redactPassword (l : List Char) : List Char := redactPasswordF l.length l

/-- `InputValidator.sanitize_for_logging` (lines 109-132): redact API
keys, then long digit runs, then password pairs, and finally, when the
redacted text is longer than `maxLength` (default 100), keep its first
`maxLength` characters and append the marker `"..."`. -/
def sanitizeForLogging (text : String) (maxLength : Nat) : String :=
  let s := redactPassword (redactDigits (redactKeys text.toList))
  if s.length > maxLength then String.mk (s.take maxLength ++ "...".toList)
  else String.mk s
/-- C8, counterexample: the returned string can exceed `max_length`.
`sanitize_for_logging("aaaaa", 3)` returns `"aaa..."`, six characters,
because the code slices to `max_length` and then appends the
three-character marker on top. -/
theorem c8_sanitize_log_counterexample :
    ¬ ((sanitizeForLogging "aaaaa" 3).length ≤ 3) := by decide

/-- C8, amended: `sanitize_for_logging` first redacts API-key-shaped
tokens, then runs of 10 or more digits, then password-like key-value
pairs, and then, whenever the redacted text is longer than
`max_length`, truncates it to its first `max_length` characters and
appends the three-character marker `"..."`; hence the returned string
never exceeds `max_length + 3` characters (not `max_length`). -/
theorem c8_sanitize_log_amended (text : String) (maxLength : Nat) :
    sanitizeForLogging text maxLength =
      (if (redactPassword (redactDigits (redactKeys text.toList))).length > maxLength
       then String.mk ((redactPassword (redactDigits
         (redactKeys text.toList))).take maxLength ++ "...".toList)
       else String.mk (redactPassword (redactDigits (redactKeys text.toList)))) ∧
    (sanitizeForLogging text maxLength).length ≤ maxLength + 3 ∧
    sanitizeForLogging "sk-abc" 5 = "[REDA..." ∧
    sanitizeForLogging "password=hunter2 ok" 100 = "password:[REDACTED] ok" := by
  refine ⟨rfl, ?_, by decide, by decide⟩
  unfold sanitizeForLogging
  by_cases h : (redactPassword (redactDigits (redactKeys text.toList))).length >
      maxLength
  · rw [if_pos h]
    show ((redactPassword (redactDigits (redactKeys text.toList))).take maxLength ++
      "...".toList).length ≤ maxLength + 3
    rw [List.length_append, List.length_take]
    have : ("...".toList).length = 3 := rfl
    rw [this]
    omega
  · rw [if_neg h]
    show (redactPassword (redactDigits (redactKeys text.toList))).length ≤ maxLength + 3
    omega
/-! ## Chat message pipeline (src/handlers/chat.py) -/

/-- The mutable state the handler holds references to: the session
manager and the rate limiter (chat.py lines 31-43). -/
structure BotState where
  sm : SMState
  rl : RLState
deriving DecidableEq

/-- The messages `handle_message` can send back, one constructor per
`reply_text` site: invalid-input report (line 63), rate-limit report
(line 74), the AI answer (line 103), the low-remaining notice
(line 107) and the completion-failure report (line 119). The payload
is the variable part of the sent text. -/
inductive Reply where
  | invalid (errorMsg : String)
  | rateLimited (waitTime : Int)
  | answer (text : String)
  | remainingNotice (remaining : Nat)
  | completionError (error : String)
deriving DecidableEq

/-- `ChatHandler.handle_message` (lines 45-119), with a single clock
reading `now` for the whole call. The OpenAI call
(`get_chat_response`, an external RPC returning
`(success, response_text, error)`) is passed in as the oracle
`complete`. The typing indicator (line 82) is pure transport IO and
sends nothing to the user, so it does not appear. Steps: validate,
admit, record the user message, read history, complete, and on success
record and send the answer (plus a notice when at most 3 requests
remain), on failure send the classified error. -/
def handleMessage (now : Int) (uid : Nat) (text : String)
    (complete : List (String × String) → Bool × String × String)
    (st : BotState) : List Reply × BotState :=
  let v := validateMessage text
  if !v.1 then ([.invalid v.2.2], st)
  else
    let ar := isAllowed now uid st.rl
    if !ar.1.1 then
      ([.rateLimited (getWaitTime now uid ar.2)], { st with rl := ar.2 })
    else
      let sm1 := addUserMessage now uid v.2.1 st.sm
      let hist := getHistory now uid sm1
      let cr := complete hist.1
      if cr.1 then
        let sm3 := addAssistantMessage now uid cr.2.1 hist.2
        (if ar.1.2 ≤ 3 then [.answer cr.2.1, .remainingNotice ar.1.2]
         else [.answer cr.2.1],
         { sm := sm3, rl := ar.2 })
      else
        ([.completionError cr.2.2], { sm := hist.2, rl := ar.2 })

/-- A bounded push keeps the pushed element at the tail whenever the
bound is positive. -/
theorem dqPush_getLast {α : Type} (m : Nat) (l : List α) (x : α) (hm : 0 < m) :
    (dqPush m l x).getLast? = some x := by
  unfold dqPush
  have hd : (l ++ [x]).length - m ≤ l.length := by
    rw [List.length_append]
    simp only [List.length_cons, List.length_nil]
    omega
  rw [List.drop_append_of_le_length hd, List.getLast?_concat]

/-- C5: when the completion call fails, the pipeline emits the
classified error reply and stops; the session store is left exactly as
it was after the user message was recorded and the history read (so
the cleaned user message stays recorded and no assistant entry is
appended); in particular, with a positive history bound, the last
stored entry for the identity is the cleaned user message. -/
theorem c5_completion_failure (now : Int) (uid : Nat) (text cleaned : String)
    (complete : List (String × String) → Bool × String × String) (st : BotState)
    (hv : validateMessage text = (true, cleaned, ""))
    (ha : (isAllowed now uid st.rl).1.1 = true)
    (hc : (complete (getHistory now uid
      (addUserMessage now uid cleaned st.sm)).1).1 = false) :
    (handleMessage now uid text complete st).1 =
      [.completionError (complete (getHistory now uid
        (addUserMessage now uid cleaned st.sm)).1).2.2] ∧
    (handleMessage now uid text complete st).2.sm =
      (getHistory now uid (addUserMessage now uid cleaned st.sm)).2 ∧
    (handleMessage now uid text complete st).2.rl = (isAllowed now uid st.rl).2 ∧
    (0 < st.sm.maxHistory →
      ((alookup (handleMessage now uid text complete st).2.sm.sessions uid).getD
        []).getLast? = some ⟨"user", cleaned, now⟩) := by
  have hred : handleMessage now uid text complete st =
      ([.completionError (complete (getHistory now uid
        (addUserMessage now uid cleaned st.sm)).1).2.2],
       { sm := (getHistory now uid (addUserMessage now uid cleaned st.sm)).2,
         rl := (isAllowed now uid st.rl).2 }) := by
    unfold handleMessage
    rw [hv]
    simp only [Bool.not_true, Bool.false_eq_true, if_false]
    rw [ha]
    simp only [Bool.not_true, Bool.false_eq_true, if_false]
    rw [hc]
    simp only [Bool.false_eq_true, if_false]
  refine ⟨by rw [hred], by rw [hred], by rw [hred], ?_⟩
  intro hm
  rw [hred]
  show ((alookup (ensureSession now uid
    (addUserMessage now uid cleaned st.sm)).sessions uid).getD []).getLast? = _
  rw [ensureSession_alookup, Option.getD_some]
  have hau : addUserMessage now uid cleaned st.sm =
      applyOp (SMOp.user uid cleaned now) st.sm := rfl
  rw [hau]
  have h2 : alookup (applyOp (SMOp.user uid cleaned now) st.sm).sessions uid =
      some (dqPush st.sm.maxHistory ((alookup st.sm.sessions uid).getD [])
        ⟨"user", cleaned, now⟩) :=
    applyOp_alookup_self (SMOp.user uid cleaned now) st.sm
  rw [h2, Option.getD_some]
  exact dqPush_getLast _ _ _ hm

/-- Concrete instance for `c5_completion_failure`: a failing completion
oracle leaves the recorded user message in place and yields the error
reply. -/
theorem c5_completion_failure_witness :
    (handleMessage 0 1 "hi" (fun _ => (false, "", "boom"))
      ⟨smInit 5 3600, rlInit 10 60 0⟩).1 = [.completionError "boom"] ∧
    ((alookup (handleMessage 0 1 "hi" (fun _ => (false, "", "boom"))
      ⟨smInit 5 3600, rlInit 10 60 0⟩).2.sm.sessions 1).getD []).getLast? =
      some ⟨"user", "hi", 0⟩ := by
  have h := c5_completion_failure 0 1 "hi" "hi" (fun _ => (false, "", "boom"))
    ⟨smInit 5 3600, rlInit 10 60 0⟩ (by decide) (by decide) (by decide)
  exact ⟨h.1, h.2.2.2 (by decide)⟩
end Bot
